import Mathlib

/-!
Verification of the oil-price acquisition-and-indicator pipeline
(`oil_report_telegram.py` / `App.py`).

Shallow embedding conventions:
* A close-price series is a `List ℚ` (pandas `Series` of floats after
  `dropna(subset=["Close"])`, so no NaN entries remain inside the column).
* pandas NaN results ("undefined" indicator values) are modelled as
  `Option ℚ` with `none` for NaN.
* Dates are modelled as `ℕ` (chronological ordinals); a dated close column
  is a `List (ℕ × ℚ)`.
* Rational division is total in Lean (`x / 0 = 0`); every division performed
  by the code is either guarded in the source (`avg_loss.replace(0, nan)`)
  or irrelevant to the stated claims.
-/

/-- Percent change over `n` observations, from `build_summary_block.pct` in
`oil_report_telegram.py` (identically `fmt_pct_val` in `App.py`):
`if len(close) > n: (close.iloc[-1] / close.iloc[-n-1] - 1.0) * 100.0 else None`. -/
def pct (close : List ℚ) (n : ℕ) : Option ℚ :=
  if n < close.length then
    some ((close.getD (close.length - 1) 0 / close.getD (close.length - 1 - n) 0 - 1) * 100)
  else none

/-- The rolling mean `close.rolling(w).mean()` evaluated at the last index:
with pandas default `min_periods = w`, the value is defined only when the
full window fits, i.e. `w ≤ len` (and the window size is positive); its
value is the mean of the entries at positions `len-1, len-2, ..., len-w`. -/
def rollingMeanLast (close : List ℚ) (w : ℕ) : Option ℚ :=
  if 0 < w ∧ w ≤ close.length then
    some ((∑ k in Finset.range w, close.getD (close.length - 1 - k) 0) / w)
  else none

/-- `close.rolling(w).mean().iloc[-1] if len(close) >= w else np.nan`, the
SMA expression of `build_summary_block` (both files, w = 20 / 50 / 200). -/
def smaLast (close : List ℚ) (w : ℕ) : Option ℚ :=
  if w ≤ close.length then rollingMeanLast close w else none

/-- `close.diff()` at index `i`: NaN at index 0 (and out of range),
otherwise `close[i] - close[i-1]`. -/
def diffAt (close : List ℚ) (i : ℕ) : Option ℚ :=
  if 0 < i ∧ i < close.length then some (close.getD i 0 - close.getD (i-1) 0) else none

/-- `gain = delta.clip(lower=0)` at index `i` (NaN propagates). -/
def gainAt (close : List ℚ) (i : ℕ) : Option ℚ :=
  (diffAt close i).map (fun d => max d 0)

/-- `loss = -delta.clip(upper=0)` at index `i` (NaN propagates). -/
def lossAt (close : List ℚ) (i : ℕ) : Option ℚ :=
  (diffAt close i).map (fun d => max (-d) 0)

/-- `gain.rolling(window=p, min_periods=p).mean()` at index `i`.
The window covers indices `i-p+1 .. i` of the gain series; since
`gain[0]` is NaN (from `diff()`), all `p` entries are non-NaN exactly when
`p ≤ i` and `i` is in range, which is the pandas definedness condition. -/
def avgGainAt (close : List ℚ) (p i : ℕ) : Option ℚ :=
  if 0 < p ∧ p ≤ i ∧ i < close.length then
    some ((∑ k in Finset.range p, ((gainAt close (i - k)).getD 0)) / p)
  else none

/-- `loss.rolling(window=p, min_periods=p).mean()` at index `i`. -/
def avgLossAt (close : List ℚ) (p i : ℕ) : Option ℚ :=
  if 0 < p ∧ p ≤ i ∧ i < close.length then
    some ((∑ k in Finset.range p, ((lossAt close (i - k)).getD 0)) / p)
  else none

/-- `rs = avg_gain / avg_loss.replace(0, np.nan)` at index `i`: a zero
average loss is replaced by NaN, and division by NaN (or with a NaN
numerator) yields NaN. -/
def rsAt (close : List ℚ) (p i : ℕ) : Option ℚ :=
  match avgGainAt close p i, avgLossAt close p i with
  | some g, some l => if l = 0 then none else some (g / l)
  | _, _ => none

/-- `rsi = 100.0 - (100.0 / (1.0 + rs))` at index `i` (NaN propagates):
the value of `rsi_series(close, p)` at index `i`. -/
def rsiAt (close : List ℚ) (p i : ℕ) : Option ℚ :=
  (rsAt close p i).map (fun r => 100 - 100 / (1 + r))

/-- `rsi_series(close, 14).iloc[-1] if len(close) >= 15 else np.nan`,
the RSI expression of `build_summary_block` (both files). -/
def rsi_last (close : List ℚ) : Option ℚ :=
  if 15 ≤ close.length then rsiAt close 14 (close.length - 1) else none

/- ===== helper lemmas about list indexing ===== -/

lemma getD_reverse (l : List ℚ) (k : ℕ) (hk : k < l.length) :
    l.reverse.getD k 0 = l.getD (l.length - 1 - k) 0 := by
  have hk' : k < l.reverse.length := by simpa using hk
  rw [List.getD_eq_getElem _ _ hk', List.getElem_reverse]
  have : l.length - 1 - k < l.length := by omega
  rw [List.getD_eq_getElem _ _ this]

lemma sum_take_eq_sum_getD (l : List ℚ) (w : ℕ) (h : w ≤ l.length) :
    (l.take w).sum = ∑ k in Finset.range w, l.getD k 0 := by
  induction l generalizing w with
  | nil =>
    have : w = 0 := by simpa using h
    simp [this]
  | cons a t ih =>
    cases w with
    | zero => simp
    | succ m =>
      have hm : m ≤ t.length := by simpa using h
      rw [List.take_succ_cons, List.sum_cons, ih m hm, Finset.sum_range_succ']
      simp [add_comm]

/- ===== C1: percent change over N ===== -/

/-- C1: For every close series and every N ≥ 1, `pct` is `none` when the
series has at most N observations, and otherwise equals
`(close[-1] / close[-1-N] - 1) * 100`, where `close[-1]` is the last close
(`close.reverse.getD 0`) and `close[-1-N]` the close N observations earlier
(`close.reverse.getD N`). -/
theorem pct_change_spec (close : List ℚ) (n : ℕ) (_hn : 1 ≤ n) :
    (close.length ≤ n → pct close n = none) ∧
    (n < close.length →
      pct close n = some ((close.reverse.getD 0 0 / close.reverse.getD n 0 - 1) * 100)) := by
  constructor
  · intro h
    simp [pct, Nat.not_lt.mpr h]
  · intro h
    have h0 : 0 < close.length := lt_of_le_of_lt (Nat.zero_le n) h
    rw [pct, if_pos h, getD_reverse close 0 h0, getD_reverse close n h]
    simp

/-- C1 witness: for closes [100, 102, 101, 105], pct-change(3) = 5.00 and
pct-change(1) = (105/101 - 1) * 100 = 400/101. -/
theorem pct_change_spec_witness :
    pct [100, 102, 101, 105] 3 = some 5 ∧ pct [100, 102, 101, 105] 1 = some (400/101) := by
  have h3 := (pct_change_spec [100, 102, 101, 105] 3 (by norm_num)).2 (by norm_num)
  have h1 := (pct_change_spec [100, 102, 101, 105] 1 (by norm_num)).2 (by norm_num)
  refine ⟨h3.trans ?_, h1.trans ?_⟩ <;> norm_num [List.getD]

/- ===== C3: simple moving average ===== -/

/-- C3: For every close series and window W ≥ 1, the SMA expression of
`build_summary_block` is undefined when the series has fewer than W
observations, and otherwise equals the arithmetic mean of the last W
closes (`(close.reverse.take w).sum / w`). -/
theorem sma_spec (close : List ℚ) (w : ℕ) (hw : 1 ≤ w) :
    (close.length < w → smaLast close w = none) ∧
    (w ≤ close.length → smaLast close w = some ((close.reverse.take w).sum / w)) := by
  constructor
  · intro h
    simp [smaLast, Nat.not_le.mpr h]
  · intro h
    have hrev : w ≤ close.reverse.length := by simpa using h
    have hsum : (close.reverse.take w).sum
        = ∑ k in Finset.range w, close.getD (close.length - 1 - k) 0 := by
      rw [sum_take_eq_sum_getD close.reverse w hrev]
      refine Finset.sum_congr rfl (fun k hk => ?_)
      exact getD_reverse close k (lt_of_lt_of_le (Finset.mem_range.mp hk) h)
    rw [smaLast, if_pos h, rollingMeanLast, if_pos ⟨hw, h⟩, hsum]

/-- C3 witness: for closes [10, 20, 30], SMA(3) = 20. -/
theorem sma_spec_witness : smaLast [10, 20, 30] 3 = some 20 := by
  have h := (sma_spec [10, 20, 30] 3 (by norm_num)).2 (by norm_num)
  rw [h]
  norm_num

/- ===== RSI helper lemmas ===== -/

lemma gainAt_getD_nonneg (close : List ℚ) (j : ℕ) : 0 ≤ (gainAt close j).getD 0 := by
  cases hd : diffAt close j <;> simp [gainAt, hd, le_max_right]

lemma lossAt_getD_nonneg (close : List ℚ) (j : ℕ) : 0 ≤ (lossAt close j).getD 0 := by
  cases hd : diffAt close j <;> simp [lossAt, hd, le_max_right]

lemma avgGainAt_spec (close : List ℚ) (p i : ℕ) (g : ℚ)
    (h : avgGainAt close p i = some g) : 0 ≤ g ∧ 0 < p ∧ p ≤ i ∧ i < close.length := by
  unfold avgGainAt at h
  split at h
  · rename_i hcond
    have hg : (∑ k in Finset.range p, ((gainAt close (i - k)).getD 0)) / p = g := by
      simpa using h
    refine ⟨?_, hcond⟩
    rw [← hg]
    have hsum : 0 ≤ ∑ k in Finset.range p, ((gainAt close (i - k)).getD 0) :=
      Finset.sum_nonneg (fun k _ => gainAt_getD_nonneg close (i - k))
    exact div_nonneg hsum (by positivity)
  · exact absurd h (by simp)

lemma avgLossAt_nonneg (close : List ℚ) (p i : ℕ) (l : ℚ)
    (h : avgLossAt close p i = some l) : 0 ≤ l := by
  unfold avgLossAt at h
  split at h
  · have hl : (∑ k in Finset.range p, ((lossAt close (i - k)).getD 0)) / p = l := by
      simpa using h
    rw [← hl]
    have hsum : 0 ≤ ∑ k in Finset.range p, ((lossAt close (i - k)).getD 0) :=
      Finset.sum_nonneg (fun k _ => lossAt_getD_nonneg close (i - k))
    exact div_nonneg hsum (by positivity)
  · exact absurd h (by simp)

/- ===== C4: RSI range and warm-up ===== -/

/-- C4: every defined value of the RSI(14) series lies in [0, 100], and a
defined value at index `i` forces `14 ≤ i < len`, i.e. at least 14
day-over-day differences (at least 15 closes) are available. -/
theorem rsi_range (close : List ℚ) (i : ℕ) (r : ℚ) (h : rsiAt close 14 i = some r) :
    (0 ≤ r ∧ r ≤ 100) ∧ 14 ≤ i ∧ i < close.length := by
  obtain ⟨s, hs, hr⟩ := Option.map_eq_some'.mp h
  rcases hg : avgGainAt close 14 i with _ | g <;>
    rcases hl : avgLossAt close 14 i with _ | l <;>
      simp [rsAt, hg, hl] at hs
  obtain ⟨hl0, hgl⟩ := hs
  obtain ⟨hgnn, -, h14, hlen⟩ := avgGainAt_spec close 14 i g hg
  have hlnn : 0 ≤ l := avgLossAt_nonneg close 14 i l hl
  have hlpos : 0 < l := lt_of_le_of_ne hlnn (Ne.symm hl0)
  have hsnn : 0 ≤ s := by rw [← hgl]; exact div_nonneg hgnn hlnn
  have h1s : (0:ℚ) < 1 + s := by linarith
  have hfrac_pos : 0 < 100 / (1 + s) := by positivity
  have hfrac_le : 100 / (1 + s) ≤ 100 := by
    rw [div_le_iff₀ h1s]; nlinarith
  refine ⟨⟨?_, ?_⟩, h14, hlen⟩ <;> rw [← hr] <;> linarith

/-- Alternating close series: 7 gains of 1 and 7 losses of 1 among the 14
differences, so RSI(14) at the last index is defined and equals 50. -/
def altCloses : List ℚ := [10, 11, 10, 11, 10, 11, 10, 11, 10, 11, 10, 11, 10, 11, 10]

set_option maxHeartbeats 1600000 in
/-- C4 witness: `altCloses` has RSI(14) = 50 at index 14, and the theorem
instantiates there. -/
theorem rsi_range_witness :
    ((0:ℚ) ≤ 50 ∧ (50:ℚ) ≤ 100) ∧ 14 ≤ 14 ∧ 14 < altCloses.length :=
  rsi_range altCloses 14 50 (by
    norm_num [rsiAt, rsAt, avgGainAt, avgLossAt, gainAt, lossAt, diffAt, altCloses,
      Finset.sum_range_succ])

/- ===== C2: RSI when the average loss is zero ===== -/

/-- Strictly increasing close series 1, 2, ..., 15: all 14 differences are
gains of 1, so the 14-period average loss at index 14 is 0 and the average
gain is 1. -/
def incCloses : List ℚ := [1, 2, 3, 4, 5, 6, 7, 8, 9, 10, 11, 12, 13, 14, 15]

set_option maxHeartbeats 1600000 in
/-- C2 counterexample: on `incCloses` the 14-period average loss at the last
index is 0 and the average gain is strictly positive, yet the code reports
RSI as NaN (`none`), not 100 — `avg_loss.replace(0, np.nan)` makes the whole
RS (and hence RSI) NaN. -/
theorem rsi_avg_loss_zero_cex :
    avgLossAt incCloses 14 14 = some 0 ∧
    avgGainAt incCloses 14 14 = some 1 ∧
    rsiAt incCloses 14 14 = none ∧
    rsiAt incCloses 14 14 ≠ some 100 := by
  have hL : avgLossAt incCloses 14 14 = some 0 := by
    norm_num [avgLossAt, lossAt, diffAt, incCloses, Finset.sum_range_succ]
  have hG : avgGainAt incCloses 14 14 = some 1 := by
    norm_num [avgGainAt, gainAt, diffAt, incCloses, Finset.sum_range_succ]
  have hR : rsiAt incCloses 14 14 = none := by simp [rsiAt, rsAt, hG, hL]
  exact ⟨hL, hG, hR, by simp [hR]⟩

/-- C2 amended: whenever the 14-period (indeed any-period) average loss at
an index is 0, the RSI value reported there is undefined (NaN), regardless
of the average gain. -/
theorem rsi_undefined_of_avg_loss_zero (close : List ℚ) (p i : ℕ)
    (h : avgLossAt close p i = some 0) : rsiAt close p i = none := by
  rcases hg : avgGainAt close p i with _ | g <;> simp [rsiAt, rsAt, hg, h]

set_option maxHeartbeats 1600000 in
/-- C2 amended witness: instantiated on `incCloses` at index 14. -/
theorem rsi_undefined_of_avg_loss_zero_witness : rsiAt incCloses 14 14 = none :=
  rsi_undefined_of_avg_loss_zero incCloses 14 14 (by
    norm_num [avgLossAt, lossAt, diffAt, incCloses, Finset.sum_range_succ])

/- ===== Fetch layer: config tables, fetchers, orchestrator ===== -/

/-- A normalized price row with columns `Date, Open, High, Low, Close`
(`open` is a Lean keyword, hence `openP`). -/
structure PriceRow where
  date : ℕ
  openP : ℚ
  high : ℚ
  low : ℚ
  close : ℚ
deriving DecidableEq, Repr

/-- `FETCH_DAYS = 60` (both files). -/
def FETCH_DAYS : ℕ := 60

/-- Python `tkr.upper()` on the ASCII ticker names used here, acting
character by character. -/
def pyUpper (s : String) : String := ⟨s.data.map Char.toUpper⟩

/-- `STQ_SYMBOLS.get(t)`: the stooq symbol table. -/
def STQ_SYMBOLS (t : String) : Option String :=
  if t = "WTI" then some "cl.f" else if t = "BRENT" then some "brn.f" else none

/-- `FRED_IDS.get(t)`: the FRED series-id table. -/
def FRED_IDS (t : String) : Option String :=
  if t = "WTI" then some "DCOILWTICO" else if t = "BRENT" then some "DCOILBRENTEU" else none

/-- `SOURCE_ORDER = ["stooq", "fred"]`. -/
def SOURCE_ORDER : List String := ["stooq", "fred"]

/-- `df.tail(days)`: the trailing `days` rows of the frame (all rows when it
has fewer than `days`). -/
def tailRows (days : ℕ) (l : List PriceRow) : List PriceRow := l.drop (l.length - days)

/-- `fetch_stooq(tkr, days)`: looks up the stooq symbol for the upper-cased
ticker and returns `None` on a miss, before any retrieval. The network GET,
CSV parse and normalization are abstracted as the oracle `net`, applied to
the symbol and the requested point count `max(days, FETCH_DAYS)` (the URL's
`c=` parameter); the oracle yields `none` for any transport or format
failure (the `except` branch). -/
def fetch_stooq (net : String → ℕ → Option (List PriceRow)) (tkr : String) (days : ℕ) :
    Option (List PriceRow) :=
  match STQ_SYMBOLS (pyUpper tkr) with
  | none => none
  | some sym => net sym (max days FETCH_DAYS)

/-- `fetch_fred_close_series(series_id)`: retrieval + normalization
abstracted as the oracle `net` applied to the FRED series id (`none` on any
failure). -/
def fetch_fred_close_series (net : String → Option (List PriceRow)) (seriesId : String) :
    Option (List PriceRow) := net seriesId

/-- The dict returned by `fetch_prices`: `{source, df, ohlc}`. -/
structure FetchResult where
  source : Option String
  df : Option (List PriceRow)
  ohlc : Option (List PriceRow)
deriving DecidableEq, Repr

/-- The FRED half of `fetch_prices`: guarded by `"fred" in SOURCE_ORDER`,
looks up the FRED id (`fred = fetch_fred_close_series(fred_id) if fred_id
else None`), and accepts a non-empty series. -/
def fetch_prices_fred (fredNet : String → Option (List PriceRow)) (tkr : String)
    (days : ℕ) : FetchResult :=
  if SOURCE_ORDER.contains "fred" then
    match FRED_IDS (pyUpper tkr) with
    | some fid =>
      match fetch_fred_close_series fredNet fid with
      | some fred =>
        if 0 < fred.length then ⟨some "fred", some fred, some (tailRows days fred)⟩
        else ⟨none, none, none⟩
      | none => ⟨none, none, none⟩
    | none => ⟨none, none, none⟩
  else ⟨none, none, none⟩

/-- `fetch_prices(tkr, days)`: tries stooq first (guarded by
`"stooq" in SOURCE_ORDER`), returning `{"source": "stooq", "df": stq,
"ohlc": stq.tail(days)}` on a non-empty result; otherwise falls through to
FRED; `{"source": None, "df": None, "ohlc": None}` when both fail. -/
def fetch_prices (stqNet : String → ℕ → Option (List PriceRow))
    (fredNet : String → Option (List PriceRow)) (tkr : String) (days : ℕ) : FetchResult :=
  if SOURCE_ORDER.contains "stooq" then
    match fetch_stooq stqNet tkr (max days FETCH_DAYS) with
    | some stq =>
      if 0 < stq.length then ⟨some "stooq", some stq, some (tailRows days stq)⟩
      else fetch_prices_fred fredNet tkr days
    | none => fetch_prices_fred fredNet tkr days
  else fetch_prices_fred fredNet tkr days

/- ===== Reconciliation merge (build_summary_block) ===== -/

/-- The close value a dated close column holds for date `d` (first matching
row). -/
def lookupClose (s : List (ℕ × ℚ)) (d : ℕ) : Option ℚ :=
  (s.find? (fun p => p.1 == d)).map Prod.snd

/-- The date column produced by `merge(extra, on="Date", how="outer")`
followed by `sort_values("Date")`: primary dates plus the fallback-only
dates, sorted ascending. -/
def unionDates (prim fall : List (ℕ × ℚ)) : List ℕ :=
  (prim.map Prod.fst ++ (fall.map Prod.fst).filter
    (fun d => decide (d ∉ prim.map Prod.fst))).insertionSort (· ≤ ·)

/-- The (Date, Close) content of the reconciliation merge:
`df.merge(extra, on="Date", how="outer").sort_values("Date")` followed by
`df["Close"] = df["Close"].fillna(df["Close_fred"])`. Every union date
carries the primary close when the date is present in the primary frame and
the fallback close otherwise (the final `.getD 0` is unreachable: a union
date belongs to at least one side). -/
def mergeClose (prim fall : List (ℕ × ℚ)) : List (ℕ × ℚ) :=
  (unionDates prim fall).map
    (fun d => (d, (lookupClose prim d).getD ((lookupClose fall d).getD 0)))

/-- The short-history reconciliation step of `build_summary_block`:
`if len(close) < 40:` fetch `FRED_IDS.get(name)` and, when the fetch yields
a non-empty frame, merge its closes in; the fallback is consulted only
inside the short branch. -/
def reconcileCloses (fredNet : String → Option (List PriceRow)) (name : String)
    (df : List (ℕ × ℚ)) : List (ℕ × ℚ) :=
  if df.length < 40 then
    match FRED_IDS (pyUpper name) with
    | some fid =>
      match fetch_fred_close_series fredNet fid with
      | some fred =>
        if 0 < fred.length then mergeClose df (fred.map (fun r => (r.date, r.close)))
        else df
      | none => df
    | none => df
  else df

/- ===== Summary block (build_summary_block) ===== -/

/-- The indicator fields interpolated into the summary HTML. -/
structure IndicatorSnapshot where
  price : ℚ
  d1 : Option ℚ
  d7 : Option ℚ
  d30 : Option ℚ
  sma20 : Option ℚ
  sma50 : Option ℚ
  sma200 : Option ℚ
  rsi14 : Option ℚ
deriving DecidableEq, Repr

/-- Outcome of `build_summary_block`: either the "⚠️ Dati non disponibili"
block (when `df is None or len(df) == 0`) or a normal block carrying the
computed indicator values. -/
inductive SummaryBlock where
  | unavailable (src : Option String)
  | report (src : Option String) (snap : IndicatorSnapshot)
deriving DecidableEq, Repr

/-- `df.sort_values("Date")` on a dated close column. -/
def sortByDate (l : List (ℕ × ℚ)) : List (ℕ × ℚ) :=
  l.insertionSort (fun a b => a.1 ≤ b.1)

/-- `build_summary_block(name, res)`, restricted to its close-level and
control-flow content (the HTML text around the numbers is presentation):
early-return "unavailable" when `df is None or len(df) == 0`; otherwise
sort by date, reconcile short history against FRED, and compute the
indicator snapshot from the merged close column. -/
def build_summary_block (fredNet : String → Option (List PriceRow)) (name : String)
    (res : FetchResult) : SummaryBlock :=
  match res.df with
  | none => .unavailable res.source
  | some df =>
    if df.length = 0 then .unavailable res.source
    else
      let sorted := sortByDate (df.map (fun r => (r.date, r.close)))
      let merged := reconcileCloses fredNet name sorted
      let close := merged.map Prod.snd
      .report res.source
        ⟨close.getD (close.length - 1) 0, pct close 1, pct close 7, pct close 30,
         smaLast close 20, smaLast close 50, smaLast close 200, rsi_last close⟩

/- ===== merge lookup lemmas ===== -/

lemma lookupClose_eq_none_iff (s : List (ℕ × ℚ)) (d : ℕ) :
    lookupClose s d = none ↔ d ∉ s.map Prod.fst := by
  induction s with
  | nil => simp [lookupClose]
  | cons a t ih =>
    by_cases h : a.1 = d
    · simp [lookupClose, List.find?_cons, h]
    · have hb : (a.1 == d) = false := by simpa using h
      have hstep : lookupClose (a :: t) d = lookupClose t d := by
        simp [lookupClose, List.find?_cons, hb]
      rw [hstep, ih]
      simp only [List.map_cons, List.mem_cons]
      constructor
      · intro hn hmem
        rcases hmem with hmem | hmem
        · exact h hmem.symm
        · exact hn hmem
      · intro hn hmem
        exact hn (Or.inr hmem)

lemma lookupClose_map_dates (dates : List ℕ) (g : ℕ → ℚ) (d : ℕ) :
    lookupClose (dates.map (fun x => (x, g x))) d
      = if d ∈ dates then some (g d) else none := by
  induction dates with
  | nil => simp [lookupClose]
  | cons a t ih =>
    by_cases h : a = d
    · subst h
      simp [lookupClose, List.find?_cons]
    · have hb : (a == d) = false := by simpa using h
      have hstep : lookupClose ((a, g a) :: t.map (fun x => (x, g x))) d
          = lookupClose (t.map (fun x => (x, g x))) d := by
        simp [lookupClose, List.find?_cons, hb]
      rw [List.map_cons, hstep, ih]
      have hda : ¬ d = a := fun hc => h hc.symm
      by_cases hd : d ∈ t
      · simp [hd]
      · simp [hd, hda]

lemma lookupClose_mergeClose (prim fall : List (ℕ × ℚ)) (d : ℕ) :
    lookupClose (mergeClose prim fall) d
      = if d ∈ unionDates prim fall
        then some ((lookupClose prim d).getD ((lookupClose fall d).getD 0))
        else none := by
  unfold mergeClose
  exact lookupClose_map_dates _ _ d

lemma mem_unionDates (prim fall : List (ℕ × ℚ)) (d : ℕ) :
    d ∈ unionDates prim fall ↔ d ∈ prim.map Prod.fst ∨ d ∈ fall.map Prod.fst := by
  unfold unionDates
  rw [(List.perm_insertionSort _ _).mem_iff]
  simp only [List.mem_append, List.mem_filter, decide_eq_true_eq]
  tauto

/- ===== C5: merge never overwrites primary closes ===== -/

/-- C5: for every primary and fallback dated close column and every date,
the reconciliation merge keeps the primary close on every date present in
the primary column (whatever the fallback holds there), and on dates absent
from the primary it carries exactly the fallback's close (none when the
date is in neither column). -/
theorem merge_preserves_primary (prim fall : List (ℕ × ℚ)) (d : ℕ) :
    (d ∈ prim.map Prod.fst →
      lookupClose (mergeClose prim fall) d = lookupClose prim d) ∧
    (d ∉ prim.map Prod.fst →
      lookupClose (mergeClose prim fall) d = lookupClose fall d) := by
  constructor
  · intro hd
    have hin : d ∈ unionDates prim fall := (mem_unionDates prim fall d).mpr (Or.inl hd)
    rw [lookupClose_mergeClose, if_pos hin]
    rcases hc : lookupClose prim d with _ | c
    · exact absurd hd ((lookupClose_eq_none_iff prim d).mp hc)
    · simp
  · intro hd
    have hnone : lookupClose prim d = none := (lookupClose_eq_none_iff prim d).mpr hd
    by_cases hf : d ∈ fall.map Prod.fst
    · have hin : d ∈ unionDates prim fall := (mem_unionDates prim fall d).mpr (Or.inr hf)
      rw [lookupClose_mergeClose, if_pos hin, hnone]
      rcases hc : lookupClose fall d with _ | c
      · exact absurd hf ((lookupClose_eq_none_iff fall d).mp hc)
      · simp
    · have hnin : d ∉ unionDates prim fall := by
        rw [mem_unionDates]
        push_neg
        exact ⟨hd, hf⟩
      rw [lookupClose_mergeClose, if_neg hnin,
        (lookupClose_eq_none_iff fall d).mpr hf]

/-- Concrete primary column: dates 1 and 2. -/
def primEx : List (ℕ × ℚ) := [(1, 10), (2, 20)]

/-- Concrete fallback column: date 2 (conflicting close) and date 3. -/
def fallEx : List (ℕ × ℚ) := [(2, 99), (3, 30)]

/-- C5 witness: with a conflicting fallback close on date 2, the merge keeps
the primary close there and takes the fallback close on the
primary-missing date 3. -/
theorem merge_preserves_primary_witness :
    lookupClose (mergeClose primEx fallEx) 2 = lookupClose primEx 2 ∧
    lookupClose (mergeClose primEx fallEx) 3 = lookupClose fallEx 3 :=
  ⟨(merge_preserves_primary primEx fallEx 2).1 (by decide),
   (merge_preserves_primary primEx fallEx 3).2 (by decide)⟩

/- ===== C6: reconciliation is a no-op on sufficient history ===== -/

/-- C6: whenever the input close column has at least 40 observations, the
reconciliation step returns it unchanged, and its result does not depend on
the fallback fetch oracle at all (the fetch is never consulted). -/
theorem reconcile_noop_of_sufficient (fredNet fredNet' : String → Option (List PriceRow))
    (name : String) (df : List (ℕ × ℚ)) (h : 40 ≤ df.length) :
    reconcileCloses fredNet name df = df ∧
    reconcileCloses fredNet name df = reconcileCloses fredNet' name df := by
  have h' : ¬ df.length < 40 := Nat.not_lt.mpr h
  constructor <;> simp [reconcileCloses, h']

/-- A 40-observation close column. -/
def df40 : List (ℕ × ℚ) := (List.range 40).map (fun i => (i, (50 : ℚ)))

/-- C6 witness: the reconciliation step leaves `df40` unchanged even under
two different fallback oracles. -/
theorem reconcile_noop_of_sufficient_witness :
    reconcileCloses (fun _ => none) "WTI" df40 = df40 ∧
    reconcileCloses (fun _ => none) "WTI" df40
      = reconcileCloses (fun _ => some []) "WTI" df40 :=
  reconcile_noop_of_sufficient (fun _ => none) (fun _ => some []) "WTI" df40
    (by simp [df40])

/- ===== C7: primary source wins ===== -/

lemma tailRows_eq_reverse_take (days : ℕ) (l : List PriceRow) :
    tailRows days l = (l.reverse.take days).reverse := by
  unfold tailRows
  by_cases h : days ≤ l.length
  · have h2 : (l.drop (l.length - days)).reverse = l.reverse.take days := by
      rw [List.reverse_drop]
      congr 1
      omega
    calc l.drop (l.length - days)
        = (l.drop (l.length - days)).reverse.reverse := by rw [List.reverse_reverse]
      _ = (l.reverse.take days).reverse := by rw [h2]
  · push_neg at h
    have h0 : l.length - days = 0 := by omega
    have hlen : l.reverse.length ≤ days := by
      rw [List.length_reverse]
      omega
    rw [h0, List.drop_zero, List.take_of_length_le hlen, List.reverse_reverse]

/-- C7: whenever the stooq fetch yields a non-empty series, `fetch_prices`
returns source "stooq" with that series as `df` and its trailing `days`
rows as `ohlc` (all rows when the series is shorter than `days`), and the
result does not depend on the FRED oracle at all. -/
theorem fetch_prices_primary_wins (stqNet : String → ℕ → Option (List PriceRow))
    (fredNet fredNet' : String → Option (List PriceRow)) (tkr : String) (days : ℕ)
    (stq : List PriceRow)
    (hs : fetch_stooq stqNet tkr (max days FETCH_DAYS) = some stq)
    (hne : 0 < stq.length) :
    fetch_prices stqNet fredNet tkr days
      = ⟨some "stooq", some stq, some (tailRows days stq)⟩ ∧
    tailRows days stq = (stq.reverse.take days).reverse ∧
    (stq.length ≤ days → tailRows days stq = stq) ∧
    fetch_prices stqNet fredNet tkr days = fetch_prices stqNet fredNet' tkr days := by
  have horder : SOURCE_ORDER.contains "stooq" = true := rfl
  have hmain : ∀ fn : String → Option (List PriceRow),
      fetch_prices stqNet fn tkr days
        = ⟨some "stooq", some stq, some (tailRows days stq)⟩ := by
    intro fn
    unfold fetch_prices
    rw [horder, if_pos rfl, hs]
    simp [hne]
  refine ⟨hmain fredNet, tailRows_eq_reverse_take days stq, ?_, ?_⟩
  · intro h
    unfold tailRows
    rw [Nat.sub_eq_zero_of_le h, List.drop_zero]
  · rw [hmain fredNet, hmain fredNet']

/-- Three concrete normalized stooq rows. -/
def rowA : PriceRow := ⟨1, 10, 11, 9, 10⟩

def rowB : PriceRow := ⟨2, 10, 12, 10, 11⟩

def rowC : PriceRow := ⟨3, 11, 12, 10, 12⟩

/-- A stooq oracle that always returns the three rows. -/
def stqNetConst : String → ℕ → Option (List PriceRow) := fun _ _ => some [rowA, rowB, rowC]

/-- A FRED oracle that always fails. -/
def fredNetNone : String → Option (List PriceRow) := fun _ => none

/-- C7 witness: with a non-empty stooq result of three rows and `days = 2`,
`fetch_prices` reports stooq with the full series and its last two rows. -/
theorem fetch_prices_primary_wins_witness :
    fetch_prices stqNetConst fredNetNone "WTI" 2
      = ⟨some "stooq", some [rowA, rowB, rowC], some (tailRows 2 [rowA, rowB, rowC])⟩ ∧
    tailRows 2 [rowA, rowB, rowC] = [rowB, rowC] := by
  have h := fetch_prices_primary_wins stqNetConst fredNetNone fredNetNone "WTI" 2
    [rowA, rowB, rowC] rfl (by simp)
  exact ⟨h.1, rfl⟩

/- ===== C9: total source failure is a graceful terminal result ===== -/

/-- C9: when every configured source fails or yields an empty series,
`fetch_prices` returns the terminal value `{source: None, df: None,
ohlc: None}` as a normal value, `build_summary_block` renders the
"unavailable" block on it, and every indicator on the empty close series
is undefined. -/
theorem all_sources_fail_graceful (stqNet : String → ℕ → Option (List PriceRow))
    (fredNet : String → Option (List PriceRow))
    (hs : ∀ s n, stqNet s n = none ∨ stqNet s n = some [])
    (hf : ∀ s, fredNet s = none ∨ fredNet s = some [])
    (tkr : String) (days : ℕ) :
    fetch_prices stqNet fredNet tkr days = ⟨none, none, none⟩ ∧
    build_summary_block fredNet tkr ⟨none, none, none⟩ = .unavailable none ∧
    (∀ n, pct [] n = none) ∧ (∀ w, smaLast [] w = none) ∧
    (∀ p i, rsiAt [] p i = none) ∧ rsi_last [] = none := by
  have hfredB : fetch_prices_fred fredNet tkr days = ⟨none, none, none⟩ := by
    unfold fetch_prices_fred
    rcases hfid : FRED_IDS (pyUpper tkr) with _ | fid
    · simp [hfid]
    · rcases hf fid with h | h <;> simp [hfid, fetch_fred_close_series, h]
  refine ⟨?_, rfl, ?_, ?_, ?_, rfl⟩
  · have horder : SOURCE_ORDER.contains "stooq" = true := rfl
    unfold fetch_prices
    rw [horder, if_pos rfl]
    rcases hsym : STQ_SYMBOLS (pyUpper tkr) with _ | sym
    · have hval : fetch_stooq stqNet tkr (max days FETCH_DAYS) = none := by
        unfold fetch_stooq
        rw [hsym]
      rw [hval]
      exact hfredB
    · have hval : fetch_stooq stqNet tkr (max days FETCH_DAYS)
          = stqNet sym (max (max days FETCH_DAYS) FETCH_DAYS) := by
        unfold fetch_stooq
        rw [hsym]
      rcases hs sym (max (max days FETCH_DAYS) FETCH_DAYS) with h | h
      · rw [hval, h]
        exact hfredB
      · rw [hval, h]
        simpa using hfredB
  · intro n
    simp [pct]
  · intro w
    rcases Nat.eq_zero_or_pos w with hw | hw
    · simp [hw, smaLast, rollingMeanLast]
    · simp [smaLast, rollingMeanLast, Nat.le_zero, Nat.pos_iff_ne_zero.mp hw]
  · intro p i
    have : avgGainAt [] p i = none := by
      simp [avgGainAt]
    simp [rsiAt, rsAt, this]

/-- C9 witness: both oracles constantly failing. -/
theorem all_sources_fail_graceful_witness :
    fetch_prices (fun _ _ => none) (fun _ => none) "WTI" 60 = ⟨none, none, none⟩ ∧
    build_summary_block (fun _ => none) "WTI" ⟨none, none, none⟩
      = .unavailable none := by
  have h := all_sources_fail_graceful (fun _ _ => none) (fun _ => none)
    (fun _ _ => Or.inl rfl) (fun _ => Or.inl rfl) "WTI" 60
  exact ⟨h.1, h.2.1⟩

/- ===== C10: unknown tickers fetch nothing ===== -/

/-- C10: for a ticker whose upper-cased name is neither "WTI" nor "BRENT",
`fetch_prices` returns the absent result for every pair of source oracles
(so no retrieval from either source can influence it), exactly the value
produced by total source failure. -/
theorem unknown_ticker_no_fetch (stqNet : String → ℕ → Option (List PriceRow))
    (fredNet : String → Option (List PriceRow)) (tkr : String) (days : ℕ)
    (hW : pyUpper tkr ≠ "WTI") (hB : pyUpper tkr ≠ "BRENT") :
    fetch_prices stqNet fredNet tkr days = ⟨none, none, none⟩ := by
  have hsym : STQ_SYMBOLS (pyUpper tkr) = none := by simp [STQ_SYMBOLS, hW, hB]
  have hfid : FRED_IDS (pyUpper tkr) = none := by simp [FRED_IDS, hW, hB]
  unfold fetch_prices fetch_prices_fred
  simp [fetch_stooq, hsym, hfid]

/-- C10 witness: the ticker "GOLD" with arbitrary concrete oracles. -/
theorem unknown_ticker_no_fetch_witness :
    fetch_prices stqNetConst fredNetNone "GOLD" 60 = ⟨none, none, none⟩ :=
  unknown_ticker_no_fetch stqNetConst fredNetNone "GOLD" 60 (by decide) (by decide)

/- ===== C8: per-source normalizers ===== -/

/-- Parse outcome of one raw stooq CSV row: `pd.to_datetime(...,
errors="coerce")` / `pd.to_numeric(..., errors="coerce")` turn unparseable
fields into NaT/NaN, modelled as `none`. -/
structure RawStooqRow where
  date : Option ℕ
  openv : Option ℚ
  highv : Option ℚ
  lowv : Option ℚ
  closev : Option ℚ
deriving DecidableEq, Repr

/-- A normalized stooq row: Date and Close parsed; Open/High/Low retained
even when they failed numeric coercion (only Date and Close are in the
`dropna` subsets). -/
structure StooqRow where
  date : ℕ
  openv : Option ℚ
  highv : Option ℚ
  lowv : Option ℚ
  closev : ℚ
deriving DecidableEq, Repr

/-- The row filter of `fetch_stooq`'s normalization:
`dropna(subset=["Date"])` followed by `dropna(subset=["Close"])` keeps
exactly the rows whose date and close both parsed. -/
def parseStooqRows (raw : List RawStooqRow) : List StooqRow :=
  raw.filterMap (fun r =>
    match r.date, r.closev with
    | some d, some c => some ⟨d, r.openv, r.highv, r.lowv, c⟩
    | _, _ => none)

/-- The `sort_values("Date")` order on normalized stooq rows. -/
def stooqLe (a b : StooqRow) : Prop := a.date ≤ b.date

instance : DecidableRel stooqLe := fun a b => Nat.decLe a.date b.date

instance : IsTotal StooqRow stooqLe := ⟨fun a b => Nat.le_total a.date b.date⟩

instance : IsTrans StooqRow stooqLe := ⟨fun _ _ _ h h2 => Nat.le_trans h h2⟩

/-- Body of `fetch_stooq`'s normalization after the header check: drop rows
with unparseable date or close, then `sort_values("Date")`. No
deduplication of dates is performed anywhere. -/
def normalize_stooq (raw : List RawStooqRow) : List StooqRow :=
  (parseStooqRows raw).insertionSort stooqLe

/-- Parse outcome of one raw FRED CSV row (date column and value column). -/
structure RawFredRow where
  date : Option ℕ
  value : Option ℚ
deriving DecidableEq, Repr

/-- Row filter of `fetch_fred_close_series`:
`dropna(subset=["Date", "Close"])` keeps exactly the rows whose date and
value both parsed. -/
def parseFredRows (raw : List RawFredRow) : List (ℕ × ℚ) :=
  raw.filterMap (fun r =>
    match r.date, r.value with
    | some d, some v => some (d, v)
    | _, _ => none)

instance : IsTotal (ℕ × ℚ) (fun a b => a.1 ≤ b.1) := ⟨fun a b => Nat.le_total a.1 b.1⟩

instance : IsTrans (ℕ × ℚ) (fun a b => a.1 ≤ b.1) := ⟨fun _ _ _ h h2 => Nat.le_trans h h2⟩

/-- The pseudo-OHLC synthesis of `fetch_fred_close_series`:
`Open = Close.shift(1).fillna(Close)` (each row's open is the previous
row's close, the first row's own close), `High = max(Open, Close)`,
`Low = min(Open, Close)`. `prev` carries the previous close. -/
def pseudoRows (prev : Option ℚ) : List (ℕ × ℚ) → List PriceRow
  | [] => []
  | p :: rest =>
    let o := prev.getD p.2
    ⟨p.1, o, max o p.2, min o p.2, p.2⟩ :: pseudoRows (some p.2) rest

/-- `fetch_fred_close_series`'s normalization: drop unparseable rows, sort
ascending by date, then synthesize pseudo-OHLC. No deduplication of dates
is performed. -/
def normalize_fred (raw : List RawFredRow) : List PriceRow :=
  pseudoRows none (sortByDate (parseFredRows raw))

lemma pseudoRows_proj (l : List (ℕ × ℚ)) :
    ∀ prev, (pseudoRows prev l).map (fun r => (r.date, r.close)) = l := by
  induction l with
  | nil => intro prev; rfl
  | cons p t ih => intro prev; simp [pseudoRows, ih]

lemma pseudoRows_dates (l : List (ℕ × ℚ)) :
    ∀ prev, (pseudoRows prev l).map PriceRow.date = l.map Prod.fst := by
  induction l with
  | nil => intro prev; rfl
  | cons p t ih => intro prev; simp [pseudoRows, ih]

/-- Raw stooq rows with a duplicated date 5 (both rows parse fully). -/
def rawDup : List RawStooqRow :=
  [⟨some 5, none, none, none, some 10⟩, ⟨some 5, none, none, none, some 20⟩]

/-- C8 counterexample: on the duplicated-date input `rawDup` the stooq
normalizer outputs the date column [5, 5] — duplicate dates survive (there
is no deduplication step), so the output dates are not strictly
increasing. -/
theorem normalize_dedup_cex :
    (normalize_stooq rawDup).map StooqRow.date = [5, 5] ∧
    ¬ List.Pairwise (· < ·) ((normalize_stooq rawDup).map StooqRow.date) := by
  have h : (normalize_stooq rawDup).map StooqRow.date = [5, 5] := by decide
  refine ⟨h, ?_⟩
  rw [h]
  intro hp
  rcases hp with _ | ⟨hrel, -⟩
  exact lt_irrefl 5 (hrel 5 (List.mem_singleton.mpr rfl))

/-- C8 amended: both normalizers drop exactly the rows with unparseable
date or close and sort ascending by date — the output date column is
nondecreasing and the output rows are a permutation of the parseable input
rows; duplicate dates are retained (no deduplication). -/
theorem normalize_sorted_no_dedup (raw : List RawStooqRow) (rawF : List RawFredRow) :
    List.Sorted (· ≤ ·) ((normalize_stooq raw).map StooqRow.date) ∧
    (normalize_stooq raw).Perm (parseStooqRows raw) ∧
    List.Sorted (· ≤ ·) ((normalize_fred rawF).map PriceRow.date) ∧
    ((normalize_fred rawF).map (fun r => (r.date, r.close))).Perm (parseFredRows rawF) := by
  refine ⟨?_, List.perm_insertionSort stooqLe (parseStooqRows raw), ?_, ?_⟩
  · exact List.pairwise_map.mpr
      (List.sorted_insertionSort stooqLe (parseStooqRows raw))
  · unfold normalize_fred
    rw [pseudoRows_dates]
    have hs : List.Sorted (fun a b : ℕ × ℚ => a.1 ≤ b.1) (sortByDate (parseFredRows rawF)) := by
      unfold sortByDate
      exact List.sorted_insertionSort (fun a b : ℕ × ℚ => a.1 ≤ b.1) (parseFredRows rawF)
    exact List.pairwise_map.mpr hs
  · unfold normalize_fred
    rw [pseudoRows_proj]
    unfold sortByDate
    exact List.perm_insertionSort (fun a b : ℕ × ℚ => a.1 ≤ b.1) (parseFredRows rawF)
